import Mathlib

/-!
Verification development for the model-runner diagnostic recorder.

This file gives a shallow embedding of the recorder found in
`pkg/metrics/openai_recorder.go` and of the normalized-key map found in
`pkg/runnermap` (the unnamed source part), and proves the specification
claims about them.

Modelling conventions:
- Go strings are `List Char` (`Str`); Go byte-wise operations coincide with
  the character-wise ones on the ASCII data the recorder handles.
- Go `map[string]interface{}` values produced by `json.Unmarshal` are
  modelled by the inductive `Json`; arrays and objects are cons-chains so
  that every function is structurally recursive and kernel-evaluable.
  JSON numbers are modelled as integers: fractional or exponent literals
  (which Go decodes into `float64`, whose semantics are outside this
  embedding) are not representable and make a chunk unparseable.
- `json.Marshal` of decoder-produced values never fails in Go, and the
  model mirrors its `(bytes, error)` signature with an `Except` that is
  always `ok`; object keys are emitted in sorted order exactly as Go
  marshals maps.
- Pointers (`*RequestResponsePair`) are heap addresses (`Nat`) resolved
  through an explicit heap in the recorder state, so that aliasing between
  the stored records and the slices handed out by `GetModelData` is
  faithfully represented.
- The logger is write-only and unobservable, and is not part of the state.
-/

set_option maxRecDepth 100000

/-- Go strings, modelled as lists of characters. -/
abbrev Str := List Char

/-- The character `{`. -/
def lbrace : Char := Char.ofNat 123

/-- The character `}`. -/
def rbrace : Char := Char.ofNat 125

/-- Test whether `p` is a prefix of `s` (Go `strings.HasPrefix s p`). -/
def strStartsWith : Str → Str → Bool
  | [], _ => true
  | _ :: _, [] => false
  | a :: ps, b :: ss => a = b && strStartsWith ps ss

/-- Test whether `sub` occurs inside `s` (Go `strings.Contains s sub`). -/
def containsB (sub : Str) : Str → Bool
  | [] => strStartsWith sub []
  | c :: rest => strStartsWith sub (c :: rest) || containsB sub rest

/-- Split on newline characters (Go `strings.Split s "\n"`). -/
def splitOnNl : Str → List Str
  | [] => [[]]
  | c :: rest =>
    if c = '\n' then [] :: splitOnNl rest
    else
      match splitOnNl rest with
      | h :: t => (c :: h) :: t
      | [] => [[c]]

/-- Byte-wise lexicographic comparison of strings, as Go compares map keys
when marshalling. -/
def strLe : Str → Str → Bool
  | [], _ => true
  | _ :: _, [] => false
  | x :: xs, y :: ys =>
    if x.val < y.val then true
    else if y.val < x.val then false
    else strLe xs ys

/-- Decimal digits of a natural number, with fuel (`fuel ≥ n` suffices). -/
def natDigits : Nat → Nat → Str
  | 0, _ => []
  | fuel + 1, n =>
    if n < 10 then [Char.ofNat (48 + n)]
    else natDigits fuel (n / 10) ++ [Char.ofNat (48 + n % 10)]

/-- Decimal rendering of an integer (Go `fmt` / `strconv` rendering). -/
def intToStr (n : Int) : Str :=
  if n < 0 then '-' :: natDigits n.natAbs n.natAbs
  else natDigits (n.natAbs + 1) n.natAbs

/-- Values decoded by `json.Unmarshal` into `interface{}`.  Arrays and
objects are cons-chains (`arrNil`/`arrCons`, `objNil`/`objCons`) so that
all operations are structurally recursive. -/
inductive Json where
  | jnull : Json
  | jbool : Bool → Json
  | jnum : Int → Json
  | jstr : Str → Json
  | arrNil : Json
  | arrCons : Json → Json → Json
  | objNil : Json
  | objCons : Str → Json → Json → Json
deriving DecidableEq

/-- Look a key up in an object chain (Go map indexing). -/
def jLookup (k : Str) : Json → Option Json
  | .objCons k2 v tl => if k2 = k then some v else jLookup k tl
  | _ => none

/-- Set a key in an object chain (Go map assignment). -/
def jSet (k : Str) (v : Json) : Json → Json
  | .objCons k2 v2 tl => if k2 = k then .objCons k2 v tl else .objCons k2 v2 (jSet k v tl)
  | .objNil => .objCons k v .objNil
  | other => other

/-- Delete a key from an object chain (Go `delete`). -/
def jDel (k : Str) : Json → Json
  | .objCons k2 v2 tl => if k2 = k then jDel k tl else .objCons k2 v2 (jDel k tl)
  | other => other

/-- Key-presence test on an object chain (Go `_, ok := m[k]`). -/
def jHas (k : Str) (j : Json) : Bool := (jLookup k j).isSome

/-- Whether a value is a JSON object (Go `.(map[string]interface{})`
type assertion success). -/
def isObj : Json → Bool
  | .objNil => true
  | .objCons _ _ _ => true
  | _ => false

/-- Build an object chain from a list of fields. -/
def mkObj : List (Str × Json) → Json
  | [] => .objNil
  | (k, v) :: rest => .objCons k v (mkObj rest)

/-- Build an array chain from a list of elements. -/
def mkArr : List Json → Json
  | [] => .arrNil
  | x :: rest => .arrCons x (mkArr rest)

/-- Length of an array chain. -/
def arrLength : Json → Nat
  | .arrCons _ tl => arrLength tl + 1
  | _ => 0

/-- Insert a field into an object chain sorted by key. -/
def objInsert (k : Str) (v : Json) : Json → Json
  | .objCons k2 v2 tl =>
    if strLe k k2 then .objCons k v (.objCons k2 v2 tl)
    else .objCons k2 v2 (objInsert k v tl)
  | other => .objCons k v other

/-- Recursively sort all object chains by key, as Go's `json.Marshal`
emits map keys in sorted order. -/
def sortJson : Json → Json
  | .arrCons hd tl => .arrCons (sortJson hd) (sortJson tl)
  | .objCons k v tl => objInsert k (sortJson v) (sortJson tl)
  | other => other

/-- Hexadecimal digit character (lowercase, as Go emits). -/
def hexDigit (n : Nat) : Char :=
  if n < 10 then Char.ofNat (48 + n) else Char.ofNat (87 + n)

/-- Escape one character as Go's JSON encoder does: quotes, backslashes,
common control characters, and the HTML-sensitive `<`, `>`, `&`. -/
def escChar (c : Char) : Str :=
  if c = '"' then ['\\', '"']
  else if c = '\\' then ['\\', '\\']
  else if c = '\n' then ['\\', 'n']
  else if c = '\r' then ['\\', 'r']
  else if c = '\t' then ['\\', 't']
  else if c = '<' ∨ c = '>' ∨ c = '&' ∨ c.toNat < 32 then
    ['\\', 'u', '0', '0', hexDigit (c.toNat / 16), hexDigit (c.toNat % 16)]
  else [c]

/-- Escape a whole string for JSON output. -/
def escStr : Str → Str
  | [] => []
  | c :: rest => escChar c ++ escStr rest

/-- Quote and escape a string for JSON output. -/
def quoteStr (s : Str) : Str := '"' :: escStr s ++ ['"']

mutual

/-- Serialize a key-sorted `Json` value (the core of `json.Marshal`). -/
def serCore : Json → Str
  | .jnull => "null".data
  | .jbool true => "true".data
  | .jbool false => "false".data
  | .jnum n => intToStr n
  | .jstr s => quoteStr s
  | .arrNil => "[]".data
  | .arrCons hd tl => '[' :: serCore hd ++ serArrTail tl
  | .objNil => [lbrace, rbrace]
  | .objCons k v tl => lbrace :: quoteStr k ++ ':' :: serCore v ++ serObjTail tl

/-- Serialize the tail of an array chain. -/
def serArrTail : Json → Str
  | .arrCons hd tl => ',' :: serCore hd ++ serArrTail tl
  | _ => [']']

/-- Serialize the tail of an object chain. -/
def serObjTail : Json → Str
  | .objCons k v tl => ',' :: quoteStr k ++ ':' :: serCore v ++ serObjTail tl
  | _ => [rbrace]

end

/-- Model of `json.Marshal` on decoder-produced values: sort every object's
keys, then print. -/
def serializeJson (j : Json) : Str := serCore (sortJson j)

/-- Whitespace in the JSON grammar. -/
def isWsChar (c : Char) : Bool := c = ' ' ∨ c = '\t' ∨ c = '\n' ∨ c = '\r'

/-- Drop leading JSON whitespace. -/
def skipWs : Str → Str
  | [] => []
  | c :: rest => if isWsChar c then skipWs rest else c :: rest

/-- Value of a hexadecimal digit, if any. -/
def hexVal (c : Char) : Option Nat :=
  if 48 ≤ c.toNat ∧ c.toNat ≤ 57 then some (c.toNat - 48)
  else if 97 ≤ c.toNat ∧ c.toNat ≤ 102 then some (c.toNat - 87)
  else if 65 ≤ c.toNat ∧ c.toNat ≤ 70 then some (c.toNat - 55)
  else none

/-- Combine the four hex digits of a `\uXXXX` escape. -/
def hex4 (a b c d : Char) : Option Nat :=
  match hexVal a, hexVal b, hexVal c, hexVal d with
  | some x, some y, some z, some w => some (((x * 16 + y) * 16 + z) * 16 + w)
  | _, _, _, _ => none

/-- Fuel-indexed parse of the body of a JSON string after the opening
quote, returning the decoded characters and the remaining input.  Matches
Go's decoder: raw control characters are rejected, `\uXXXX` escapes are
decoded, surrogate pairs are combined, and a lone surrogate becomes
U+FFFD. -/
def parseStrBodyF : Nat → Str → Option (Str × Str)
  | 0, _ => none
  | fuel + 1, s =>
    match s with
    | [] => none
    | '"' :: rest => some ([], rest)
    | '\\' :: 'u' :: a :: b :: c :: d :: rest =>
      (match hex4 a b c d with
       | none => none
       | some n =>
         if 0xD800 ≤ n ∧ n ≤ 0xDBFF then
           match rest with
           | '\\' :: 'u' :: e :: f :: g :: h :: rest2 =>
             (match hex4 e f g h with
              | some m =>
                if 0xDC00 ≤ m ∧ m ≤ 0xDFFF then
                  match parseStrBodyF fuel rest2 with
                  | some (str, rem) =>
                    some (Char.ofNat (0x10000 + (n - 0xD800) * 0x400 + (m - 0xDC00)) :: str, rem)
                  | none => none
                else
                  match parseStrBodyF fuel rest with
                  | some (str, rem) => some (Char.ofNat 0xFFFD :: str, rem)
                  | none => none
              | none => none)
           | _ =>
             match parseStrBodyF fuel rest with
             | some (str, rem) => some (Char.ofNat 0xFFFD :: str, rem)
             | none => none
         else if 0xDC00 ≤ n ∧ n ≤ 0xDFFF then
           match parseStrBodyF fuel rest with
           | some (str, rem) => some (Char.ofNat 0xFFFD :: str, rem)
           | none => none
         else
           match parseStrBodyF fuel rest with
           | some (str, rem) => some (Char.ofNat n :: str, rem)
           | none => none)
    | '\\' :: e :: rest =>
      (match
        (if e = '"' then some '"'
         else if e = '\\' then some '\\'
         else if e = '/' then some '/'
         else if e = 'b' then some (Char.ofNat 8)
         else if e = 'f' then some (Char.ofNat 12)
         else if e = 'n' then some '\n'
         else if e = 'r' then some '\r'
         else if e = 't' then some '\t'
         else none) with
       | none => none
       | some decoded =>
         match parseStrBodyF fuel rest with
         | some (str, rem) => some (decoded :: str, rem)
         | none => none)
    | c :: rest =>
      if c.toNat < 32 then none
      else
        match parseStrBodyF fuel rest with
        | some (str, rem) => some (c :: str, rem)
        | none => none

/-- Parse a JSON string body; every step consumes at least one input
character, so `length + 1` fuel always suffices. -/
def parseStrBody (s : Str) : Option (Str × Str) := parseStrBodyF (s.length + 1) s

/-- Take a maximal run of decimal digits. -/
def takeDigits : Str → (Str × Str)
  | [] => ([], [])
  | c :: rest =>
    if 48 ≤ c.toNat ∧ c.toNat ≤ 57 then
      match takeDigits rest with
      | (ds, rem) => (c :: ds, rem)
    else ([], c :: rest)

/-- Numeric value of a digit string. -/
def digitsToNat : Str → Nat → Nat
  | [], acc => acc
  | c :: rest, acc => digitsToNat rest (acc * 10 + (c.toNat - 48))

/-- Parse a JSON integer literal.  Leading zeros are rejected as in the
JSON grammar; a following `.`, `e` or `E` (a `float64` literal in Go) is
outside the integer model and fails. -/
def parseNum (s : Str) : Option (Json × Str) :=
  match s with
  | '-' :: rest =>
    match parseNum rest with
    | some (.jnum n, rem) => some (.jnum (-n), rem)
    | _ => none
  | _ =>
    match takeDigits s with
    | ([], _) => none
    | (d :: ds, rem) =>
      if d = '0' ∧ ds ≠ [] then none
      else
        match rem with
        | c :: _ =>
          if c = '.' ∨ c = 'e' ∨ c = 'E' then none
          else some (.jnum (Int.ofNat (digitsToNat (d :: ds) 0)), rem)
        | [] => some (.jnum (Int.ofNat (digitsToNat (d :: ds) 0)), rem)

mutual

/-- Fuel-indexed JSON value parse (the grammar accepted by
`json.Unmarshal`, restricted to integer numbers). -/
def parseVal : Nat → Str → Option (Json × Str)
  | 0, _ => none
  | fuel + 1, s =>
    match skipWs s with
    | '"' :: rest =>
      match parseStrBody rest with
      | some (str, rem) => some (.jstr str, rem)
      | none => none
    | '[' :: rest => parseArrItems fuel rest
    | c :: rest =>
      if c = lbrace then parseObjItems fuel rest
      else if strStartsWith "null".data (c :: rest) then some (.jnull, (c :: rest).drop 4)
      else if strStartsWith "true".data (c :: rest) then some (.jbool true, (c :: rest).drop 4)
      else if strStartsWith "false".data (c :: rest) then some (.jbool false, (c :: rest).drop 5)
      else parseNum (c :: rest)
    | [] => none

/-- Parse array elements after `[`, producing an array chain. -/
def parseArrItems : Nat → Str → Option (Json × Str)
  | 0, _ => none
  | fuel + 1, s =>
    match skipWs s with
    | ']' :: rest => some (.arrNil, rest)
    | other =>
      match parseVal fuel other with
      | none => none
      | some (v, rem) =>
        match skipWs rem with
        | ',' :: rest2 =>
          match parseArrItems fuel rest2 with
          | some (tl, rem2) => some (.arrCons v tl, rem2)
          | none => none
        | ']' :: rest2 => some (.arrCons v .arrNil, rest2)
        | _ => none

/-- Parse object fields after the opening brace, producing an object
chain; on duplicate keys the later assignment wins, as for a Go map. -/
def parseObjItems : Nat → Str → Option (Json × Str)
  | 0, _ => none
  | fuel + 1, s =>
    match skipWs s with
    | '"' :: rest =>
      match parseStrBody rest with
      | none => none
      | some (key, rem) =>
        match skipWs rem with
        | ':' :: rest2 =>
          match parseVal fuel rest2 with
          | none => none
          | some (v, rem2) =>
            match skipWs rem2 with
            | ',' :: rest3 =>
              match parseObjItems fuel rest3 with
              | some (tl, rem3) =>
                some (if jHas key tl then tl else .objCons key v tl, rem3)
              | none => none
            | c :: rest3 =>
              if c = rbrace then some (.objCons key v .objNil, rest3) else none
            | [] => none
        | _ => none
    | c :: rest =>
      if c = rbrace then some (.objNil, rest) else none
    | [] => none

end

/-- Model of `json.Unmarshal` of a complete value: parse, then require
only whitespace to remain. -/
def parseJson (s : Str) : Option Json :=
  match parseVal (2 * s.length + 2) s with
  | some (j, rest) => if skipWs rest = [] then some j else none
  | none => none

/-- The SSE data-field marker (`"data: "`). -/
def dataMarker : Str := "data: ".data

/-- The stream-terminator sentinel (`"[DONE]"`). -/
def doneLit : Str := "[DONE]".data

/-- Drop the `"data: "` marker (Go `strings.TrimPrefix line "data: "`,
applied after the prefix test succeeded). -/
def dataTrim (line : Str) : Str := line.drop dataMarker.length

/-- Model of `json.Unmarshal(data, &chunk)` for
`chunk map[string]interface{}`: a JSON object decodes into the map, the
literal `null` decodes into a nil map without error (`some none`), and any
other value is an unmarshalling error (`none`). -/
def chunkUnmarshal (data : Str) : Option (Option Json) :=
  match parseJson data with
  | some .jnull => some none
  | some j => if isObj j then some (some j) else none
  | none => none

/-- Incremental content fragment carried by a chunk's first choice
(`chunk["choices"][0]["delta"]["content"]`, empty if any type assertion
fails); indexing a nil map yields nothing. -/
def extractDeltaContent : Option Json → Str
  | none => []
  | some chunk =>
    match jLookup "choices".data chunk with
    | some (.arrCons c0 _) =>
      match jLookup "delta".data c0 with
      | some delta =>
        match jLookup "content".data delta with
        | some (.jstr content) => content
        | _ => []
      | none => []
    | _ => []

/-- The line loop of `convertStreamingResponse`: accumulate content
fragments and remember the last successfully parsed chunk; stop at the
`[DONE]` sentinel; skip lines that fail to parse. -/
def processLines : List Str → Str → Option (Option Json) → Str × Option (Option Json)
  | [], content, last => (content, last)
  | line :: rest, content, last =>
    if strStartsWith dataMarker line then
      let data := dataTrim line
      if data = doneLit then (content, last)
      else
        match chunkUnmarshal data with
        | none => processLines rest content last
        | some chunk => processLines rest (content ++ extractDeltaContent chunk) (some chunk)
    else processLines rest content last

/-- Post-loop rebuild: copy the last chunk's top-level fields, replace the
first choice's delta with a materialized message, default its finish
reason to "stop" when absent, and mark the object as a non-streaming
completion. -/
def rebuildFinal (lastChunk : Json) (content : Str) : Json :=
  let finalResponse := lastChunk
  let finalResponse :=
    match jLookup "choices".data finalResponse with
    | some (.arrCons c0 rest) =>
      if isObj c0 then
        let c1 := jSet "message".data
          (mkObj [("role".data, .jstr "assistant".data), ("content".data, .jstr content)]) c0
        let c2 := jDel "delta".data c1
        let c3 :=
          if jHas "finish_reason".data c2 then c2
          else jSet "finish_reason".data (.jstr "stop".data) c2
        jSet "choices".data (.arrCons c3 rest) finalResponse
      else finalResponse
    | _ => finalResponse
  jSet "object".data (.jstr "chat.completion".data) finalResponse

/-- Model of `json.Marshal`'s fallible signature; on values produced by
the decoder serialization always succeeds. -/
def jsonMarshal (j : Json) : Except Unit Str := .ok (serializeJson j)

/-- Translation of `convertStreamingResponse`: reconstruct a single
response out of an SSE stream, falling back to the original body when no
chunk parsed or serialization fails. -/
def convertStreamingResponse (streamingBody : Str) : Str :=
  let lines := splitOnNl streamingBody
  match processLines lines [] none with
  | (_, none) => streamingBody
  | (_, some none) => streamingBody
  | (content, some (some lastChunk)) =>
    match jsonMarshal (rebuildFinal lastChunk content) with
    | .ok out => out
    | .error _ => streamingBody

/-- Operating mode of a runner (`inference.BackendMode`, an external
enumeration of which only the completion member is referenced here). -/
inductive BackendMode where
  | completion : BackendMode
  | embedding : BackendMode
deriving DecidableEq

/-- Opaque stand-in for the external `inference.BackendConfiguration`
value type; the recorder stores and copies it without inspecting it. -/
structure BackendConfiguration where
  raw : Int
deriving DecidableEq

/-- Identity tuple indexing runners (`runnermap.Key`). -/
structure Key where
  Backend : Str
  Model : Str
  Mode : BackendMode
deriving DecidableEq

/-- Association-list lookup (first match), modelling a Go map read. -/
def alGet {α : Type} : List (Key × α) → Key → Option α
  | [], _ => none
  | (k2, v) :: rest, k => if k2 = k then some v else alGet rest k

/-- Association-list update: replace the existing binding or append,
modelling a Go map write. -/
def alSet {α : Type} : List (Key × α) → Key → α → List (Key × α)
  | [], k, v => [(k, v)]
  | (k2, v2) :: rest, k, v =>
    if k2 = k then (k2, v) :: rest else (k2, v2) :: alSet rest k v

/-- Association-list removal of a key, modelling Go `delete`. -/
def alDel {α : Type} : List (Key × α) → Key → List (Key × α)
  | [], _ => []
  | (k2, v2) :: rest, k =>
    if k2 = k then alDel rest k else (k2, v2) :: alDel rest k

/-- Translation of `runnermap.Map[T]`: keyed storage with a caller-supplied
normalization applied to the model component, plus a side table retaining
the last raw model string per normalized key. -/
structure RunnerMap (α : Type) where
  m : List (Key × α)
  initialModel : List (Key × Str)
  normalizeFn : Str → Str

/-- Translation of `runnermap.New`. -/
def rmNew (α : Type) (normalizeFn : Str → Str) : RunnerMap α :=
  { m := [], initialModel := [], normalizeFn := normalizeFn }

/-- Translation of `Map.normalizeKey`. -/
def normalizeKey {α : Type} (rm : RunnerMap α) (key : Key) : Key :=
  { key with Model := rm.normalizeFn key.Model }

/-- Translation of `Map.Set`. -/
def rmSet {α : Type} (rm : RunnerMap α) (key : Key) (value : α) : RunnerMap α :=
  let normKey := normalizeKey rm key
  { rm with
    initialModel := alSet rm.initialModel normKey key.Model
    m := alSet rm.m normKey value }

/-- Translation of `Map.Get`. -/
def rmGet {α : Type} (rm : RunnerMap α) (key : Key) : Option α :=
  alGet rm.m (normalizeKey rm key)

/-- Translation of `Map.GetInitialModel`; a missing entry yields Go's zero
string. -/
def rmGetInitialModel {α : Type} (rm : RunnerMap α) (key : Key) : Str :=
  (alGet rm.initialModel (normalizeKey rm key)).getD []

/-- Translation of `Map.Delete`. -/
def rmDelete {α : Type} (rm : RunnerMap α) (key : Key) : RunnerMap α :=
  let normKey := normalizeKey rm key
  { rm with m := alDel rm.m normKey, initialModel := alDel rm.initialModel normKey }

/-- Translation of `RequestResponsePair`.  `Timestamp` is the nanosecond
instant (`time.Time` is identified with its `UnixNano` value). -/
structure RequestResponsePair where
  ID : Str
  Model : Str
  Method : Str
  URL : Str
  Request : Str
  Response : Str
  Timestamp : Int
  StatusCode : Int
  UserAgent : Str
deriving DecidableEq

/-- Translation of `ModelData`.  `Records` holds heap addresses standing
for the Go `[]*RequestResponsePair` slice of record pointers. -/
structure ModelData where
  Config : BackendConfiguration
  Records : List Nat
deriving DecidableEq

/-- Translation of the `OpenAIRecorder` state: the keyed store, plus an
explicit heap resolving record pointers, and the next fresh address.  The
logger and the mutex (whose discipline is a concurrency property outside a
sequential embedding) are not modelled. -/
structure OpenAIRecorder where
  records : RunnerMap ModelData
  heap : Nat → Option RequestResponsePair
  nextAddr : Nat

/-- Translation of `NewOpenAIRecorder`. -/
def newOpenAIRecorder (runnerMapNormalizeFn : Str → Str) : OpenAIRecorder :=
  { records := rmNew ModelData runnerMapNormalizeFn
    heap := fun _ => none
    nextAddr := 0 }

/-- Heap update at one address (a write through a record pointer). -/
def heapSet (h : Nat → Option RequestResponsePair) (a : Nat)
    (r : RequestResponsePair) : Nat → Option RequestResponsePair :=
  fun x => if x = a then some r else h x

/-- The zero-valued `ModelData` created lazily for a fresh key
(`&ModelData{Records: make([]*RequestResponsePair, 0, 10), Config:
inference.BackendConfiguration{}}`). -/
def emptyModelData : ModelData := { Config := { raw := 0 }, Records := [] }

/-- Translation of `SetConfigForModel`: a nil config is rejected (logged,
no mutation); otherwise the entry is created lazily and its config
replaced. -/
def setConfigForModel (runner : Key) (config : Option BackendConfiguration)
    (s : OpenAIRecorder) : OpenAIRecorder :=
  match config with
  | none => s
  | some cfg =>
    match rmGet s.records runner with
    | some md => { s with records := rmSet s.records runner { md with Config := cfg } }
    | none => { s with records := rmSet s.records runner { emptyModelData with Config := cfg } }

/-- Request metadata drawn from the `*http.Request` argument. -/
structure RequestMeta where
  Method : Str
  URLPath : Str
  UserAgent : Str
deriving DecidableEq

/-- One request-capture input: metadata, raw body, and the nanosecond
clock reading used for both the id and the timestamp. -/
structure ReqInput where
  meta : RequestMeta
  body : Str
  nowNano : Int
deriving DecidableEq

/-- The `RequestResponsePair` that `RecordRequest` builds for an input:
request fields populated, response fields zero-valued. -/
def requestRecord (runner : Key) (inp : ReqInput) : RequestResponsePair :=
  { ID := runner.Model ++ '_' :: intToStr inp.nowNano
    Model := runner.Model
    Method := inp.meta.Method
    URL := inp.meta.URLPath
    Request := inp.body
    Response := []
    Timestamp := inp.nowNano
    StatusCode := 0
    UserAgent := inp.meta.UserAgent }

/-- Translation of `RecordRequest`: build the record, lazily create the
key's `ModelData`, append, and evict the oldest entry when the length
exceeds 10.  Returns the generated record id and the new state. -/
def recordRequest (runner : Key) (inp : ReqInput) (s : OpenAIRecorder) :
    Str × OpenAIRecorder :=
  let record := requestRecord runner inp
  let md := (rmGet s.records runner).getD emptyModelData
  let appended := md.Records ++ [s.nextAddr]
  let newRecords := if 10 < appended.length then appended.tail else appended
  (record.ID,
   { s with
     records := rmSet s.records runner { md with Records := newRecords }
     heap := heapSet s.heap s.nextAddr record
     nextAddr := s.nextAddr + 1 })

/-- Translation of the `responseRecorder` decorator's observable state:
the buffered body and the tracked status code.  The embedded underlying
`http.ResponseWriter` is pass-through and unobservable to the recorder. -/
structure responseRecorder where
  body : Str
  statusCode : Int
deriving DecidableEq

/-- Append to the buffered body (`responseRecorder.Write`; the bytes are
also forwarded to the underlying sink). -/
def responseRecorderWrite (rr : responseRecorder) (b : Str) : responseRecorder :=
  { rr with body := rr.body ++ b }

/-- Track the most recent status code (`responseRecorder.WriteHeader`). -/
def responseRecorderWriteHeader (rr : responseRecorder) (statusCode : Int) :
    responseRecorder :=
  { rr with statusCode := statusCode }

/-- An `http.ResponseWriter` by dynamic type: either the concrete
`*responseRecorder` or any other implementation. -/
inductive RespWriter where
  | plainWriter : RespWriter
  | recorderWriter : responseRecorder → RespWriter
deriving DecidableEq

/-- Translation of `NewResponseRecorder`: wrap the given sink with an
empty buffer and status `http.StatusOK`. -/
def newResponseRecorder (_w : RespWriter) : RespWriter :=
  .recorderWriter { body := [], statusCode := 200 }

/-- The response text stored by `RecordResponse`: bodies containing the
SSE data marker are reconstructed, all others are kept verbatim. -/
def responseTextOf (responseBody : Str) : Str :=
  if containsB dataMarker responseBody then convertStreamingResponse responseBody
  else responseBody

/-- Linear scan of the key's current records for the first one whose id
matches, filling its response fields in place (a heap write through the
record pointer); `none` when no record matches. -/
def fillFirstMatch (heap : Nat → Option RequestResponsePair) (addrs : List Nat)
    (id response : Str) (statusCode : Int) : Option (Nat → Option RequestResponsePair) :=
  match addrs with
  | [] => none
  | a :: rest =>
    match heap a with
    | some record =>
      if record.ID = id then
        some (heapSet heap a { record with Response := response, StatusCode := statusCode })
      else fillFirstMatch heap rest id response statusCode
    | none => fillFirstMatch heap rest id response statusCode

/-- Translation of `RecordResponse`.  The unchecked downcast
`rw.(*responseRecorder)` panics on any other writer, modelled as `none`;
a missing key or unmatched id is logged and leaves the state untouched. -/
def recordResponse (id : Str) (runner : Key) (rw : RespWriter)
    (s : OpenAIRecorder) : Option OpenAIRecorder :=
  match rw with
  | .plainWriter => none
  | .recorderWriter rr =>
    let responseBody := rr.body
    let statusCode := rr.statusCode
    let response := responseTextOf responseBody
    match rmGet s.records runner with
    | some modelData =>
      (match fillFirstMatch s.heap modelData.Records id response statusCode with
       | some h2 => some { s with heap := h2 }
       | none => some s)
    | none => some s

/-- The fixed backend name `llamacpp.Name` used by the model-name
convenience operations. -/
def llamacppName : Str := "llama.cpp".data

/-- The fixed (backend, mode) pairing addressed by `GetModelData` and the
query endpoint. -/
def completionKey (model : Str) : Key :=
  { Backend := llamacppName, Model := model, Mode := .completion }

/-- Translation of `GetModelData`: on a hit, return a fresh `ModelData`
holding a copy of the config and a freshly allocated sequence listing the
same record pointers (`copy(records, modelData.Records)`). -/
def getModelData (s : OpenAIRecorder) (model : Str) : Option ModelData :=
  match rmGet s.records (completionKey model) with
  | some modelData => some { Config := modelData.Config, Records := modelData.Records }
  | none => none

/-- Dereference a pointer sequence against the recorder's heap. -/
def derefRecords (s : OpenAIRecorder) (addrs : List Nat) :
    List (Option RequestResponsePair) :=
  addrs.map s.heap

/-- The data a `GetModelData` caller can observe by following the returned
pointers: the config copy plus the dereferenced records. -/
def readModelData (s : OpenAIRecorder) (model : Str) :
    Option (BackendConfiguration × List (Option RequestResponsePair)) :=
  (getModelData s model).map fun md => (md.Config, derefRecords s md.Records)

/-- A caller mutating a record through a pointer contained in a returned
snapshot (`rec.Response = resp`). -/
def setResponseThroughPtr (s : OpenAIRecorder) (a : Nat) (resp : Str) :
    OpenAIRecorder :=
  match s.heap a with
  | some r => { s with heap := heapSet s.heap a { r with Response := resp } }
  | none => s

/-- JSON encoding of one record, dereferenced as `json.Marshal` does for a
`*RequestResponsePair` (a nil pointer would marshal as null); `user_agent`
carries `omitempty`.  The `time.Time` timestamp is identified with its
numeric instant. -/
def rrpToJson (r : RequestResponsePair) : Json :=
  mkObj ([("id".data, .jstr r.ID),
          ("model".data, .jstr r.Model),
          ("method".data, .jstr r.Method),
          ("url".data, .jstr r.URL),
          ("request".data, .jstr r.Request),
          ("response".data, .jstr r.Response),
          ("timestamp".data, .jnum r.Timestamp),
          ("status_code".data, .jnum r.StatusCode)] ++
         (if r.UserAgent = [] then [] else [("user_agent".data, .jstr r.UserAgent)]))

/-- JSON encoding of a stored record pointer. -/
def ptrJson (s : OpenAIRecorder) (a : Nat) : Json :=
  match s.heap a with
  | some r => rrpToJson r
  | none => .jnull

/-- Opaque JSON encoding of the external configuration value. -/
def configJson (c : BackendConfiguration) : Json := .jnum c.raw

/-- The object serialized on the query endpoint's 200 path
(`{"model": ..., "records": ..., "count": ..., "config": ...}`). -/
def successPayload (model : Str) (modelData : ModelData) (s : OpenAIRecorder) : Json :=
  mkObj [("model".data, .jstr model),
         ("records".data, mkArr (modelData.Records.map (ptrJson s))),
         ("count".data, .jnum modelData.Records.length),
         ("config".data, configJson modelData.Config)]

/-- Model of `http.Error`: the status code plus the message with a
trailing newline. -/
def httpError (msg : Str) (code : Nat) : Nat × Str := (code, msg ++ ['\n'])

/-- Translation of the `GetRecordsByModelHandler` closure, as a function
from the `model` query parameter (empty when absent) to the written status
code and body; `json.NewEncoder(w).Encode` appends a newline. -/
def getRecordsByModelHandler (s : OpenAIRecorder) (model : Str) : Nat × Str :=
  if model = [] then
    httpError "A \x27model\x27 query parameter is required".data 400
  else
    match getModelData s model with
    | none =>
      httpError ("No records found for model \x27".data ++ model ++ ['\x27']) 404
    | some modelData =>
      (200, serializeJson (successPayload model modelData s) ++ ['\n'])

/-- One step of the bounded history at the list level: append, then drop
the oldest entry when the length exceeds 10. -/
def evictAppend {α : Type} (l : List α) (x : α) : List α :=
  let appended := l ++ [x]
  if 10 < appended.length then appended.tail else appended

/-- Fold a sequence of request captures against one key through the
recorder. -/
def applyRequests (runner : Key) (inputs : List ReqInput) (s : OpenAIRecorder) :
    OpenAIRecorder :=
  inputs.foldl (fun st inp => (recordRequest runner inp st).2) s

/-- The record values currently stored under a key, dereferenced through
the heap (empty when the key has no entry). -/
def readStoredRecords (s : OpenAIRecorder) (runner : Key) :
    List (Option RequestResponsePair) :=
  match rmGet s.records runner with
  | some md => md.Records.map s.heap
  | none => []

/-- Well-formedness of the recorder state: every stored record pointer was
allocated (is below the next fresh address). -/
def StoreWF (s : OpenAIRecorder) : Prop :=
  ∀ p ∈ s.records.m, ∀ a ∈ p.2.Records, a < s.nextAddr

/-- Decidable test that a response-capture call would find no record: the
key is absent, or no current record of the key carries the id. -/
def noMatchIn (s : OpenAIRecorder) (runner : Key) (id : Str) : Bool :=
  match rmGet s.records runner with
  | none => true
  | some md =>
    md.Records.all fun a =>
      match s.heap a with
      | some r => decide (r.ID ≠ id)
      | none => true

/-- First element of a decoded object's "choices" array, if any. -/
def firstChoice (j : Json) : Option Json :=
  match jLookup "choices".data j with
  | some (.arrCons c _) => some c
  | _ => none

/-- The identity model-name normalization (used for concrete scenarios). -/
def idNorm : Str → Str := fun s => s

/-- A non-trivial normalization mapping the spelling `A` to `a`. -/
def lowerA : Str → Str := fun s => s.map fun c => if c = 'A' then 'a' else c

/-- The completion-mode key for model "m" used in concrete scenarios. -/
def c1Key : Key := completionKey "m".data

/-- A concrete request-capture input. -/
def c1Input : ReqInput :=
  { meta := { Method := "POST".data, URLPath := "/chat".data, UserAgent := [] }
    body := "b".data
    nowNano := 5 }

/-- Recorder state holding exactly one captured request for model "m". -/
def c1State : OpenAIRecorder :=
  (recordRequest c1Key c1Input (newOpenAIRecorder idNorm)).2

/-- Twelve concrete request-capture inputs. -/
def c2Inputs : List ReqInput :=
  (List.range 12).map fun i =>
    { meta := { Method := "POST".data, URLPath := "/x".data, UserAgent := [] }
      body := "r".data
      nowNano := Int.ofNat i }

/-- A streamed body carrying content fragments "Hello" and " world" with
no finish reason, terminated by the sentinel. -/
def c3Body : Str :=
  ("data: \x7b\"created\":1,\"choices\":[\x7b\"delta\":\x7b\"content\":\"Hello\"\x7d\x7d]\x7d\n" ++
   "data: \x7b\"created\":1,\"choices\":[\x7b\"delta\":\x7b\"content\":\" world\"\x7d\x7d]\x7d\n" ++
   "data: [DONE]\n").data

/-- The reconstructed response decoded back to a JSON value. -/
def c3Decoded : Option Json := parseJson (convertStreamingResponse c3Body)

/-- A streamed body whose single chunk spells its id field with a `\u`
escape. -/
def c7Body : Str :=
  ("data: \x7b\"id\":\"\\u0041\",\"choices\":[\x7b\"delta\":\x7b\"content\":\"x\"\x7d\x7d]\x7d\n" ++
   "data: [DONE]\n").data

/-- The raw bytes of that chunk's id field as they appear on the wire. -/
def c7IdRaw : Str := "\"id\":\"\\u0041\"".data

/-- The decoded form of the single chunk of `c7Body`. -/
def c7Chunk : Json :=
  mkObj [("id".data, .jstr "A".data),
         ("choices".data,
          mkArr [mkObj [("delta".data, mkObj [("content".data, .jstr "x".data)])]])]

/-- Setting a key makes it retrievable (Go map write/read agreement). -/
theorem alGet_alSet_self {α : Type} (l : List (Key × α)) (k : Key) (v : α) :
    alGet (alSet l k v) k = some v := by
  induction l with
  | nil => simp [alSet, alGet]
  | cons p rest ih =>
    obtain ⟨k2, v2⟩ := p
    by_cases h : k2 = k
    · simp [alSet, h, alGet]
    · simp [alSet, h, alGet, ih]

/-- Deleting a key removes it (Go map delete/read agreement). -/
theorem alGet_alDel_self {α : Type} (l : List (Key × α)) (k : Key) :
    alGet (alDel l k) k = none := by
  induction l with
  | nil => rfl
  | cons p rest ih =>
    obtain ⟨k2, v2⟩ := p
    by_cases h : k2 = k
    · simp [alDel, h, ih]
    · simp [alDel, h, alGet, ih]

/-- C9: `Set`, `Get` and `Delete` all apply the normalization function to
the model component of the key before touching storage, so keys whose
model spellings normalize identically address one bucket, and `Set`
records the raw model string retrievable via `GetInitialModel`. -/
theorem runnermap_normalization {α : Type} (m : RunnerMap α) (k1 k2 : Key) (v : α)
    (hb : k1.Backend = k2.Backend) (hm : k1.Mode = k2.Mode)
    (hn : m.normalizeFn k1.Model = m.normalizeFn k2.Model) :
    rmGet (rmSet m k1 v) k2 = some v ∧
    rmGetInitialModel (rmSet m k1 v) k2 = k1.Model ∧
    rmGet (rmDelete (rmSet m k1 v) k2) k1 = none := by
  have hkey : normalizeKey m k1 = normalizeKey m k2 := by
    cases k1; cases k2; simp_all [normalizeKey]
  refine ⟨?_, ?_, ?_⟩
  · show alGet (alSet m.m (normalizeKey m k1) v) (normalizeKey m k2) = some v
    rw [← hkey]
    exact alGet_alSet_self m.m (normalizeKey m k1) v
  · show (alGet (alSet m.initialModel (normalizeKey m k1) k1.Model)
      (normalizeKey m k2)).getD [] = k1.Model
    rw [← hkey, alGet_alSet_self]
    rfl
  · show alGet (alDel (alSet m.m (normalizeKey m k1) v) (normalizeKey m k2))
      (normalizeKey m k1) = none
    rw [hkey]
    exact alGet_alDel_self _ (normalizeKey m k2)

/-- Witness for C9 at a concrete map, normalizer and key pair. -/
theorem runnermap_normalization_witness :
    rmGet (rmSet (rmNew Nat lowerA) { Backend := "b".data, Model := "A".data, Mode := .completion } 7)
        { Backend := "b".data, Model := "a".data, Mode := .completion } = some 7 ∧
    rmGetInitialModel (rmSet (rmNew Nat lowerA) { Backend := "b".data, Model := "A".data, Mode := .completion } 7)
        { Backend := "b".data, Model := "a".data, Mode := .completion } = "A".data ∧
    rmGet (rmDelete (rmSet (rmNew Nat lowerA) { Backend := "b".data, Model := "A".data, Mode := .completion } 7)
        { Backend := "b".data, Model := "a".data, Mode := .completion })
        { Backend := "b".data, Model := "A".data, Mode := .completion } = none :=
  runnermap_normalization (rmNew Nat lowerA) _ _ 7 (by decide) (by decide) (by decide)

/-- A response-capture call through a genuine `*responseRecorder` never
panics: every branch returns a state. -/
theorem recordResponse_recorder_isSome (id : Str) (runner : Key)
    (rr : responseRecorder) (s : OpenAIRecorder) :
    recordResponse id runner (.recorderWriter rr) s ≠ none := by
  simp only [recordResponse]
  cases hget : rmGet s.records runner with
  | none => simp
  | some md =>
    cases hfill : fillFirstMatch s.heap md.Records id (responseTextOf rr.body) rr.statusCode <;>
      simp [hfill]

/-- C10: `RecordResponse` downcasts its writer to `*responseRecorder`
unchecked, panicking (before touching stored state) exactly when the
writer is of any other dynamic type; writers produced by
`NewResponseRecorder` never trip it. -/
theorem recordResponse_requires_recorder_writer (id : Str) (runner : Key)
    (rw : RespWriter) (s : OpenAIRecorder) :
    (recordResponse id runner rw s = none ↔ rw = RespWriter.plainWriter) ∧
    ∀ w, recordResponse id runner (newResponseRecorder w) s ≠ none := by
  constructor
  · cases rw with
    | plainWriter => simp [recordResponse]
    | recorderWriter rr =>
      exact ⟨fun h => absurd h (recordResponse_recorder_isSome id runner rr s),
             fun h => by cases h⟩
  · intro w
    exact recordResponse_recorder_isSome id runner { body := [], statusCode := 200 } s

/-- Witness for C10: a concrete call with a non-recorder writer panics. -/
theorem recordResponse_requires_recorder_writer_witness :
    recordResponse [] c1Key RespWriter.plainWriter c1State = none :=
  (recordResponse_requires_recorder_writer [] c1Key RespWriter.plainWriter c1State).1.mpr rfl

/-- A scan over records none of which carries the id finds nothing. -/
theorem fillFirstMatch_eq_none (heap : Nat → Option RequestResponsePair)
    (addrs : List Nat) (id resp : Str) (code : Int)
    (h : ∀ a ∈ addrs, ∀ r, heap a = some r → r.ID ≠ id) :
    fillFirstMatch heap addrs id resp code = none := by
  induction addrs with
  | nil => rfl
  | cons a rest ih =>
    simp only [fillFirstMatch]
    cases hr : heap a with
    | none => exact ih fun a2 ha2 => h a2 (List.mem_cons_of_mem _ ha2)
    | some r =>
      have hne : r.ID ≠ id := h a (List.mem_cons_self a rest) r hr
      simp only [hne, ite_false, if_false, if_neg, ne_eq, not_false_eq_true]
      exact ih fun a2 ha2 => h a2 (List.mem_cons_of_mem _ ha2)

/-- C4: a response-capture call whose id matches no current record of its
key (or whose key has no entry) returns the state unchanged — every stored
record untouched, no other store mutation, and no panic (the error is only
logged). -/
theorem recordResponse_unmatched_no_mutation (id : Str) (runner : Key)
    (rr : responseRecorder) (s : OpenAIRecorder)
    (h : noMatchIn s runner id = true) :
    recordResponse id runner (.recorderWriter rr) s = some s := by
  simp only [recordResponse]
  cases hget : rmGet s.records runner with
  | none => simp
  | some md =>
    have hfill : fillFirstMatch s.heap md.Records id (responseTextOf rr.body)
        rr.statusCode = none := by
      apply fillFirstMatch_eq_none
      intro a ha r hrr
      unfold noMatchIn at h
      rw [hget] at h
      have := (List.all_eq_true.mp h) a ha
      rw [hrr] at this
      exact of_decide_eq_true this
    simp [hfill]

/-- Witness for C4: a late response with an unknown id leaves the concrete
one-record state exactly as it was. -/
theorem recordResponse_unmatched_no_mutation_witness :
    recordResponse "zzz".data c1Key
      (.recorderWriter { body := "ok".data, statusCode := 200 }) c1State = some c1State :=
  recordResponse_unmatched_no_mutation "zzz".data c1Key
    { body := "ok".data, statusCode := 200 } c1State (by decide)

/-- C6: the stored response text is the buffered raw body exactly when the
body lacks the SSE data marker, and is the stream reconstruction exactly
when the marker occurs anywhere in the body (`responseTextOf` is the
value `RecordResponse` stores). -/
theorem response_capture_marker_dispatch :
    (∀ body, containsB dataMarker body = false → responseTextOf body = body) ∧
    (∀ body, containsB dataMarker body = true →
      responseTextOf body = convertStreamingResponse body) := by
  constructor <;> intro body h <;> simp [responseTextOf, h]

/-- Witness for C6 at one marker-free and one marker-carrying body. -/
theorem response_capture_marker_dispatch_witness :
    responseTextOf "plain body".data = "plain body".data ∧
    responseTextOf "data: [DONE]\n".data = convertStreamingResponse "data: [DONE]\n".data :=
  ⟨response_capture_marker_dispatch.1 "plain body".data (by decide),
   response_capture_marker_dispatch.2 "data: [DONE]\n".data (by decide)⟩

/-- C3: reconstructing the stream whose chunks carry the fragments
"Hello" and " world" and no finish reason, then the terminator, yields
text decoding to an object whose first choice carries the materialized
message `{role: "assistant", content: "Hello world"}` (fields reparsed in
marshalled key order), no delta field, finish reason "stop", and whose
top-level object field is the non-streaming marker "chat.completion". -/
theorem streaming_round_trip_hello_world :
    (c3Decoded.bind firstChoice).bind (jLookup "message".data) =
      some (mkObj [("content".data, .jstr "Hello world".data),
                   ("role".data, .jstr "assistant".data)]) ∧
    (c3Decoded.bind firstChoice).bind (jLookup "delta".data) = none ∧
    (c3Decoded.bind firstChoice).bind (jLookup "finish_reason".data) =
      some (.jstr "stop".data) ∧
    c3Decoded.bind (jLookup "object".data) = some (.jstr "chat.completion".data) := by
  refine ⟨?_, ?_, ?_, ?_⟩ <;> decide

/-- Counterexample for C7: the single (hence last) chunk of `c7Body`
spells its id field as the bytes `"id":"A"`, but the reconstructed
output re-encodes it as `"id":"A"` — the untouched top-level field is
preserved only as a JSON value, not byte-for-byte. -/
theorem last_chunk_fields_not_byte_faithful_cex :
    containsB c7IdRaw c7Body = true ∧
    containsB c7IdRaw (convertStreamingResponse c7Body) = false ∧
    (parseJson (convertStreamingResponse c7Body)).bind (jLookup "id".data) =
      some (.jstr "A".data) := by
  refine ⟨?_, ?_, ?_⟩ <;> decide

/-- Setting one key of an object leaves lookups of other keys unchanged. -/
theorem jLookup_jSet_ne (k k2 : Str) (v : Json) (j : Json) (h : k ≠ k2) :
    jLookup k (jSet k2 v j) = jLookup k j := by
  have hk2 : k2 ≠ k := fun hh => h hh.symm
  induction j with
  | objCons k3 v3 tl ihv ihtl =>
    by_cases h3 : k3 = k2
    · subst h3
      simp [jSet, jLookup, hk2]
    · simp [jSet, jLookup, h3, ihtl]
  | objNil => simp [jSet, jLookup, hk2]
  | jnull => rfl
  | jbool b => rfl
  | jnum n => rfl
  | jstr s => rfl
  | arrNil => rfl
  | arrCons hd tl ihh iht => rfl

/-- C7 (amended): the rebuilt object agrees with the last successfully
parsed chunk on every top-level field other than `object` and `choices`
as JSON values, and the reconstruction output is exactly the
serialization of that rebuilt object; serialization may re-encode the
bytes of those fields, so the preservation is value-level, not
byte-for-byte. -/
theorem rebuild_preserves_fields_as_values :
    (∀ lastChunk content k, k ≠ "object".data → k ≠ "choices".data →
        jLookup k (rebuildFinal lastChunk content) = jLookup k lastChunk) ∧
    (∀ body content lastChunk,
        processLines (splitOnNl body) [] none = (content, some (some lastChunk)) →
        convertStreamingResponse body = serializeJson (rebuildFinal lastChunk content)) := by
  constructor
  · intro lc content k hobj hch
    simp only [rebuildFinal]
    rw [jLookup_jSet_ne k "object".data _ _ hobj]
    split
    · split
      · rw [jLookup_jSet_ne k "choices".data _ _ hch]
      · rfl
    · rfl
  · intro body content lastChunk h
    simp only [convertStreamingResponse, h, jsonMarshal]

/-- Witness for the amended C7 at a concrete chunk and body. -/
theorem rebuild_preserves_fields_as_values_witness :
    jLookup "id".data (rebuildFinal c7Chunk "x".data) = jLookup "id".data c7Chunk ∧
    convertStreamingResponse c7Body = serializeJson (rebuildFinal c7Chunk "x".data) :=
  ⟨rebuild_preserves_fields_as_values.1 c7Chunk "x".data "id".data (by decide) (by decide),
   rebuild_preserves_fields_as_values.2 c7Body "x".data c7Chunk (by decide)⟩

/-- C5: stream reconstruction is fail-open — when no data line yields a
chunk the original body is returned unchanged; an unparseable data line is
skipped without affecting the run; and the result is always either the
passthrough body or a successful serialization of the rebuilt object,
never a surfaced error. -/
theorem convertStreamingResponse_fail_open :
    (∀ body content, processLines (splitOnNl body) [] none = (content, none) →
        convertStreamingResponse body = body) ∧
    (∀ pre post content last bad,
        strStartsWith dataMarker bad = true → dataTrim bad ≠ doneLit →
        chunkUnmarshal (dataTrim bad) = none →
        processLines (pre ++ bad :: post) content last =
          processLines (pre ++ post) content last) ∧
    (∀ body, convertStreamingResponse body = body ∨
        ∃ content lastChunk,
          processLines (splitOnNl body) [] none = (content, some (some lastChunk)) ∧
          convertStreamingResponse body = serializeJson (rebuildFinal lastChunk content)) := by
  refine ⟨?_, ?_, ?_⟩
  · intro body content h
    simp only [convertStreamingResponse, h]
  · intro pre post content last bad hpre hdone hchunk
    induction pre generalizing content last with
    | nil =>
      simp only [List.nil_append, processLines, hpre, if_true, hchunk]
      rw [if_neg hdone]
    | cons line pre ih =>
      simp only [List.cons_append, processLines]
      by_cases h1 : strStartsWith dataMarker line = true
      · simp only [h1, if_true]
        by_cases h2 : dataTrim line = doneLit
        · simp [h2]
        · rw [if_neg h2, if_neg h2]
          cases h3 : chunkUnmarshal (dataTrim line) with
          | none => exact ih content last
          | some chunk => exact ih (content ++ extractDeltaContent chunk) (some chunk)
      · simp only [Bool.not_eq_true] at h1
        simp only [h1, Bool.false_eq_true, if_false]
        exact ih content last
  · intro body
    rcases h : processLines (splitOnNl body) [] none with ⟨c, last⟩
    cases last with
    | none => exact Or.inl (by simp only [convertStreamingResponse, h])
    | some mv =>
      cases mv with
      | none => exact Or.inl (by simp only [convertStreamingResponse, h])
      | some lc =>
        refine Or.inr ⟨c, lc, rfl, ?_⟩
        simp only [convertStreamingResponse, h, jsonMarshal]

/-- Witness for C5: a marker-free body passes through, and a concrete
unparseable data line is skipped. -/
theorem convertStreamingResponse_fail_open_witness :
    convertStreamingResponse "hi".data = "hi".data ∧
    processLines ([] ++ "data: oops".data :: []) [] none =
      processLines ([] ++ []) [] none :=
  ⟨convertStreamingResponse_fail_open.1 "hi".data [] (by decide),
   convertStreamingResponse_fail_open.2.1 [] [] [] none "data: oops".data
     (by decide) (by decide) (by decide)⟩

/-- Counterexample for C1: after one captured request, mutating the
record reachable through the pointer contained in the snapshot returned
by `GetModelData` changes the stored state — a subsequent query
dereferences to different data. -/
theorem query_record_mutation_visible_cex :
    (getModelData c1State "m".data).map ModelData.Records = some [0] ∧
    readModelData (setResponseThroughPtr c1State 0 "X".data) "m".data ≠
      readModelData c1State "m".data := by
  refine ⟨?_, ?_⟩ <;> decide

/-- C1 (amended): `GetModelData` returns a fresh `ModelData` whose config
is a value copy and whose records sequence is a fresh slice listing the
stored record pointers, but those records themselves are shared by
reference: mutating a record contained in the returned copy does change
the stored state, and a subsequent query observes the mutation. -/
theorem query_snapshot_shares_records (s : OpenAIRecorder) (model : Str)
    (md : ModelData) (a : Nat) (r : RequestResponsePair) (resp : Str)
    (hq : getModelData s model = some md) (ha : a ∈ md.Records)
    (hr : s.heap a = some r) (hne : r.Response ≠ resp) :
    (∃ md0, rmGet s.records (completionKey model) = some md0 ∧
        md = { Config := md0.Config, Records := md0.Records }) ∧
    readModelData (setResponseThroughPtr s a resp) model ≠ readModelData s model := by
  constructor
  · unfold getModelData at hq
    cases hg : rmGet s.records (completionKey model) with
    | none => rw [hg] at hq; cases hq
    | some md0 =>
      rw [hg] at hq
      refine ⟨md0, rfl, ?_⟩
      injection hq with hq2
      exact hq2.symm
  · have hrecords : (setResponseThroughPtr s a resp).records = s.records := by
      unfold setResponseThroughPtr
      rw [hr]
    have hgmd : getModelData (setResponseThroughPtr s a resp) model = some md := by
      unfold getModelData at hq ⊢
      rw [hrecords]
      exact hq
    have hheap2 : (setResponseThroughPtr s a resp).heap a =
        some { r with Response := resp } := by
      unfold setResponseThroughPtr
      rw [hr]
      show heapSet s.heap a _ a = _
      unfold heapSet
      simp
    intro hcontra
    unfold readModelData at hcontra
    rw [hgmd, hq, Option.map_some', Option.map_some'] at hcontra
    injection hcontra with hpair
    have hlists : derefRecords (setResponseThroughPtr s a resp) md.Records =
        derefRecords s md.Records := congrArg Prod.snd hpair
    obtain ⟨n, hn⟩ := List.get?_of_mem ha
    have h1 : (derefRecords (setResponseThroughPtr s a resp) md.Records).get? n =
        some ((setResponseThroughPtr s a resp).heap a) := by
      unfold derefRecords
      rw [List.get?_map, hn]
      rfl
    have h2 : (derefRecords s md.Records).get? n = some (s.heap a) := by
      unfold derefRecords
      rw [List.get?_map, hn]
      rfl
    rw [hlists, h2] at h1
    rw [hr, hheap2] at h1
    injection h1 with h3
    injection h3 with h4
    have : r.Response = resp := by rw [h4]
    exact hne this

/-- Witness for the amended C1 at the concrete one-record state. -/
theorem query_snapshot_shares_records_witness :
    (∃ md0, rmGet c1State.records (completionKey "m".data) = some md0 ∧
        ({ Config := { raw := 0 }, Records := [0] } : ModelData) =
          { Config := md0.Config, Records := md0.Records }) ∧
    readModelData (setResponseThroughPtr c1State 0 "X".data) "m".data ≠
      readModelData c1State "m".data :=
  query_snapshot_shares_records c1State "m".data
    { Config := { raw := 0 }, Records := [0] } 0 (requestRecord c1Key c1Input)
    "X".data (by decide) (by decide) (by decide) (by decide)

/-- The length of a built array chain is the source list's length. -/
theorem arrLength_mkArr (l : List Json) : arrLength (mkArr l) = l.length := by
  induction l with
  | nil => rfl
  | cons x rest ih => simp [mkArr, arrLength, ih]

/-- C8: the query endpoint answers 400 with the required-parameter
message exactly when the model parameter is empty, 404 with the
not-found message when the model has no entry, and otherwise 200 with
the serialized `{model, records, count, config}` object whose count field
equals the length of the returned records array; no input yields 500
(serialization in the model, as on decoder-produced Go values, cannot
fail). -/
theorem getRecordsByModelHandler_contract :
    (∀ s, getRecordsByModelHandler s [] =
        (400, "A \x27model\x27 query parameter is required".data ++ ['\n'])) ∧
    (∀ s model, model ≠ [] → getModelData s model = none →
        getRecordsByModelHandler s model =
          (404, "No records found for model \x27".data ++ model ++ "\x27\n".data)) ∧
    (∀ s model md, model ≠ [] → getModelData s model = some md →
        getRecordsByModelHandler s model =
          (200, serializeJson (successPayload model md s) ++ ['\n']) ∧
        jLookup "count".data (successPayload model md s) =
          some (.jnum md.Records.length) ∧
        jLookup "records".data (successPayload model md s) =
          some (mkArr (md.Records.map (ptrJson s))) ∧
        arrLength (mkArr (md.Records.map (ptrJson s))) = md.Records.length) ∧
    (∀ s model, (getRecordsByModelHandler s model).1 ≠ 500) := by
  refine ⟨?_, ?_, ?_, ?_⟩
  · intro s
    rfl
  · intro s model h1 h2
    simp [getRecordsByModelHandler, h1, h2, httpError, List.append_assoc]
  · intro s model md h1 h2
    refine ⟨?_, rfl, rfl, ?_⟩
    · simp [getRecordsByModelHandler, h1, h2]
    · rw [arrLength_mkArr, List.length_map]
  · intro s model
    by_cases h1 : model = []
    · subst h1
      simp [getRecordsByModelHandler, httpError]
    · cases h2 : getModelData s model with
      | none => simp [getRecordsByModelHandler, h1, h2, httpError]
      | some md => simp [getRecordsByModelHandler, h1, h2]

/-- Witness for C8 at the empty and the one-record concrete states. -/
theorem getRecordsByModelHandler_contract_witness :
    getRecordsByModelHandler (newOpenAIRecorder idNorm) [] =
      (400, "A \x27model\x27 query parameter is required".data ++ ['\n']) ∧
    getRecordsByModelHandler (newOpenAIRecorder idNorm) "m".data =
      (404, "No records found for model \x27".data ++ "m".data ++ "\x27\n".data) ∧
    getRecordsByModelHandler c1State "m".data =
      (200, serializeJson
        (successPayload "m".data { Config := { raw := 0 }, Records := [0] } c1State) ++
        ['\n']) :=
  ⟨getRecordsByModelHandler_contract.1 (newOpenAIRecorder idNorm),
   getRecordsByModelHandler_contract.2.1 (newOpenAIRecorder idNorm) "m".data
     (by decide) (by decide),
   (getRecordsByModelHandler_contract.2.2.1 c1State "m".data
     { Config := { raw := 0 }, Records := [0] } (by decide) (by decide)).1⟩

/-- An entry found by association-list lookup is in the list. -/
theorem alGet_mem {α : Type} (l : List (Key × α)) (k : Key) (v : α)
    (h : alGet l k = some v) : (k, v) ∈ l := by
  induction l with
  | nil => cases h
  | cons p rest ih =>
    obtain ⟨k2, v2⟩ := p
    by_cases hk : k2 = k
    · subst hk
      simp [alGet] at h
      rw [← h]
      exact List.mem_cons_self _ _
    · simp [alGet, hk] at h
      exact List.mem_cons_of_mem _ (ih h)

/-- Membership after an association-list update: the new binding or an
old one. -/
theorem mem_alSet {α : Type} (l : List (Key × α)) (k : Key) (v : α)
    (p : Key × α) (h : p ∈ alSet l k v) : p = (k, v) ∨ p ∈ l := by
  induction l with
  | nil =>
    simp [alSet] at h
    exact Or.inl h
  | cons q rest ih =>
    obtain ⟨k2, v2⟩ := q
    by_cases hk : k2 = k
    · subst hk
      simp [alSet] at h
      rcases h with h | h
      · exact Or.inl (by rw [h])
      · exact Or.inr (List.mem_cons_of_mem _ h)
    · simp [alSet, hk] at h
      rcases h with h | h
      · exact Or.inr (by rw [h]; exact List.mem_cons_self _ _)
      · rcases ih h with h2 | h2
        · exact Or.inl h2
        · exact Or.inr (List.mem_cons_of_mem _ h2)

/-- Setting a key in the runner map makes it retrievable. -/
theorem rmGet_rmSet_self {α : Type} (rm : RunnerMap α) (k : Key) (v : α) :
    rmGet (rmSet rm k v) k = some v := by
  show alGet (alSet rm.m (normalizeKey rm k) v) (normalizeKey rm k) = some v
  exact alGet_alSet_self rm.m (normalizeKey rm k) v

/-- Reading an updated heap at the updated address. -/
theorem heapSet_self (h : Nat → Option RequestResponsePair) (a : Nat)
    (r : RequestResponsePair) : heapSet h a r a = some r := by
  unfold heapSet
  simp

/-- Reading an updated heap elsewhere. -/
theorem heapSet_ne (h : Nat → Option RequestResponsePair) (a x : Nat)
    (r : RequestResponsePair) (hx : x ≠ a) : heapSet h a r x = h x := by
  unfold heapSet
  simp [hx]

/-- A fresh recorder is well-formed. -/
theorem storeWF_new (f : Str → Str) : StoreWF (newOpenAIRecorder f) := by
  intro p hp
  cases hp

/-- Request capture preserves well-formedness. -/
theorem storeWF_recordRequest (s : OpenAIRecorder) (runner : Key) (inp : ReqInput)
    (hwf : StoreWF s) : StoreWF (recordRequest runner inp s).2 := by
  intro p hp a ha
  simp only [recordRequest] at hp
  rcases mem_alSet _ _ _ _ hp with hnew | hold
  · subst hnew
    simp only at ha
    have ha2 : a ∈ ((rmGet s.records runner).getD emptyModelData).Records ++
        [s.nextAddr] := by
      by_cases hlen : 10 <
          (((rmGet s.records runner).getD emptyModelData).Records ++ [s.nextAddr]).length
      · rw [if_pos hlen] at ha
        exact List.tail_subset _ ha
      · rw [if_neg hlen] at ha
        exact ha
    rcases List.mem_append.mp ha2 with hin | hin
    · cases hmd : rmGet s.records runner with
      | none =>
        rw [hmd] at hin
        cases hin
      | some md0 =>
        rw [hmd] at hin
        have := hwf _ (alGet_mem _ _ _ hmd) a hin
        show a < s.nextAddr + 1
        omega
    · have : a = s.nextAddr := by simpa using hin
      show a < s.nextAddr + 1
      omega
  · have := hwf p hold a ha
    show a < s.nextAddr + 1
    omega

/-- One request capture acts on the dereferenced stored records as the
bounded append-evict step. -/
theorem readStoredRecords_recordRequest (s : OpenAIRecorder) (runner : Key)
    (inp : ReqInput) (hwf : StoreWF s) :
    readStoredRecords (recordRequest runner inp s).2 runner =
      evictAppend (readStoredRecords s runner) (some (requestRecord runner inp)) := by
  have hbound : ∀ a ∈ ((rmGet s.records runner).getD emptyModelData).Records,
      a < s.nextAddr := by
    intro a ha
    cases hmd : rmGet s.records runner with
    | none =>
      rw [hmd] at ha
      cases ha
    | some md0 =>
      rw [hmd] at ha
      exact hwf _ (alGet_mem _ _ _ hmd) a ha
  have hreadS : readStoredRecords s runner =
      ((rmGet s.records runner).getD emptyModelData).Records.map s.heap := by
    unfold readStoredRecords
    cases hmd : rmGet s.records runner with
    | none => rfl
    | some md0 => rfl
  have hmapold :
      ((rmGet s.records runner).getD emptyModelData).Records.map
        (heapSet s.heap s.nextAddr (requestRecord runner inp)) =
      ((rmGet s.records runner).getD emptyModelData).Records.map s.heap := by
    apply List.map_congr_left
    intro a ha
    exact heapSet_ne s.heap s.nextAddr a (requestRecord runner inp)
      (Nat.ne_of_lt (hbound a ha))
  have htail : ∀ (xs : List Nat) (g : Nat → Option RequestResponsePair),
      xs.tail.map g = (xs.map g).tail := by
    intro xs g
    cases xs <;> rfl
  rw [hreadS]
  simp only [recordRequest, readStoredRecords, rmGet_rmSet_self]
  set l := ((rmGet s.records runner).getD emptyModelData).Records with hl
  set rec := requestRecord runner inp with hrec
  have hmapapp : (l ++ [s.nextAddr]).map (heapSet s.heap s.nextAddr rec) =
      l.map s.heap ++ [some rec] := by
    rw [List.map_append, hmapold]
    simp [heapSet_self]
  by_cases hlen : 10 < (l ++ [s.nextAddr]).length
  · have hlen2 : 10 < (l.map s.heap ++ [some rec]).length := by
      simpa using hlen
    rw [if_pos hlen]
    unfold evictAppend
    rw [if_pos hlen2, htail, hmapapp]
  · have hlen2 : ¬ 10 < (l.map s.heap ++ [some rec]).length := by
      simpa using hlen
    rw [if_neg hlen]
    unfold evictAppend
    rw [if_neg hlen2]
    exact hmapapp

/-- Folding request captures corresponds to folding the append-evict step
over the dereferenced records. -/
theorem readStoredRecords_applyRequests (s : OpenAIRecorder) (runner : Key)
    (inputs : List ReqInput) (hwf : StoreWF s) :
    readStoredRecords (applyRequests runner inputs s) runner =
      (inputs.map fun inp => some (requestRecord runner inp)).foldl evictAppend
        (readStoredRecords s runner) := by
  induction inputs generalizing s with
  | nil => rfl
  | cons inp rest ih =>
    show readStoredRecords (applyRequests runner rest (recordRequest runner inp s).2)
        runner = _
    rw [ih _ (storeWF_recordRequest s runner inp hwf),
        readStoredRecords_recordRequest s runner inp hwf]
    rfl

/-- One bounded step on a saturated window slides it. -/
theorem evictAppend_drop {α : Type} (l : List α) (y : α) :
    evictAppend (l.drop (l.length - 10)) y = (l ++ [y]).drop (l.length + 1 - 10) := by
  by_cases h : l.length ≤ 9
  · have h0 : l.length - 10 = 0 := by omega
    have h1 : l.length + 1 - 10 = 0 := by omega
    rw [h0, h1, List.drop_zero, List.drop_zero]
    unfold evictAppend
    rw [if_neg (by simp; omega)]
  · have h10 : 10 ≤ l.length := by omega
    have hdlen : (l.drop (l.length - 10)).length = 10 := by
      rw [List.length_drop]
      omega
    have hcond : 10 < (l.drop (l.length - 10) ++ [y]).length := by
      rw [List.length_append, hdlen]
      simp
    unfold evictAppend
    rw [if_pos hcond]
    have htl : (l.drop (l.length - 10)).tail = l.drop (l.length - 9) := by
      rw [List.tail_drop]
      congr 1
      omega
    obtain ⟨c, d2, hcd⟩ : ∃ c d2, l.drop (l.length - 10) = c :: d2 := by
      cases hx : l.drop (l.length - 10) with
      | nil => rw [hx] at hdlen; cases hdlen
      | cons c d2 => exact ⟨c, d2, rfl⟩
    rw [hcd]
    simp only [List.cons_append, List.tail_cons]
    have hd2 : d2 = l.drop (l.length - 9) := by
      rw [← htl, hcd]
      rfl
    rw [hd2]
    have h9 : l.length + 1 - 10 = l.length - 9 := by omega
    rw [h9, List.drop_append_of_le_length (by omega)]

/-- Folding the bounded step from an empty history keeps the last ten
entries. -/
theorem foldl_evictAppend_drop {α : Type} (l : List α) :
    l.foldl evictAppend [] = l.drop (l.length - 10) := by
  induction l using List.reverseRecOn with
  | nil => rfl
  | append_singleton l y ih =>
    rw [List.foldl_append, ih]
    simp only [List.foldl_cons, List.foldl_nil]
    rw [evictAppend_drop]
    congr 1
    simp

/-- C2: starting from a fresh recorder, after N request captures against
one key the stored, dereferenced records are exactly the last
min(N, 10) built records in order — so the count is min(N, 10) and, once
N exceeds 10, the earliest surviving record is the (N-9)th captured one;
eviction from index 0 happens with the append, so no state ever holds
more than 10 records. -/
theorem recordRequest_fifo_bound (f : Str → Str) (runner : Key)
    (inputs : List ReqInput) :
    readStoredRecords (applyRequests runner inputs (newOpenAIRecorder f)) runner =
      (inputs.map fun inp => some (requestRecord runner inp)).drop
        (inputs.length - 10) ∧
    (readStoredRecords (applyRequests runner inputs (newOpenAIRecorder f))
        runner).length = min inputs.length 10 ∧
    (10 < inputs.length →
      (readStoredRecords (applyRequests runner inputs (newOpenAIRecorder f))
          runner).head? =
        (inputs.get? (inputs.length - 10)).map fun inp =>
          some (requestRecord runner inp)) := by
  have hmain : readStoredRecords (applyRequests runner inputs (newOpenAIRecorder f))
      runner =
      (inputs.map fun inp => some (requestRecord runner inp)).drop
        (inputs.length - 10) := by
    rw [readStoredRecords_applyRequests _ _ _ (storeWF_new f)]
    have hempty : readStoredRecords (newOpenAIRecorder f) runner = [] := rfl
    rw [hempty, foldl_evictAppend_drop]
    congr 1
    simp
  refine ⟨hmain, ?_, ?_⟩
  · rw [hmain, List.length_drop, List.length_map]
    omega
  · intro hN
    rw [hmain]
    have hh : ∀ (xs : List (Option RequestResponsePair)) (n : Nat),
        (xs.drop n).head? = xs.get? n := by
      intro xs n
      induction xs generalizing n with
      | nil => simp
      | cons x rest ih =>
        cases n with
        | zero => rfl
        | succ n2 => simp [ih n2]
    rw [hh, List.get?_map]

/-- Witness for C2 at twelve concrete captures: ten survive and the
earliest surviving one is the third captured. -/
theorem recordRequest_fifo_bound_witness :
    (readStoredRecords (applyRequests c1Key c2Inputs (newOpenAIRecorder idNorm))
        c1Key).length = min c2Inputs.length 10 ∧
    (readStoredRecords (applyRequests c1Key c2Inputs (newOpenAIRecorder idNorm))
        c1Key).head? =
      (c2Inputs.get? (c2Inputs.length - 10)).map fun inp =>
        some (requestRecord c1Key inp) :=
  ⟨(recordRequest_fifo_bound idNorm c1Key c2Inputs).2.1,
   (recordRequest_fifo_bound idNorm c1Key c2Inputs).2.2 (by decide)⟩
